import Mathlib

/-!
Verification of the context-window management and live-frame sampling
pipeline of the chef-claude voice agent (src/agent.py).

The embedding mirrors the Python source:
  - the frame ring buffer is a bounded deque of capacity 3;
  - chat history items carry a role and a content value that is either a
    plain string or a list of content parts (text strings or images);
  - stripping, injection, summarization triggering and the background
    compaction task are translated as pure functions, with the external
    summarization model call passed in as an argument of type
    Except Unit String (error = raised exception).
-/

namespace ChefClaude

/-- Context management settings from the source. -/
def MAX_CHAT_ITEMS : Nat := 40

/-- Images are kept only in the most recent 2 messages. -/
def KEEP_IMAGES_IN_LAST_N : Nat := 2

/-- Async summarization triggers when the item count exceeds this. -/
def SUMMARIZE_THRESHOLD : Nat := 24

/-- Number of recent items kept untouched when summarizing. -/
def KEEP_RECENT_ITEMS : Nat := 8

/-- Capacity of the frame ring buffer, deque maxlen 3 in the source. -/
def FRAME_BUFFER_CAP : Nat := 3

/-- A decoded video frame, opaque to the pipeline; modelled by the string
of its pixel data. The pipeline never inspects it. -/
abbrev Frame := String

/-- One content part of a chat message: a text string or an image
reference, mirroring str and ImageContent parts in the source. -/
inductive ContentPart where
  | text (s : String)
  | image (url : String)
deriving DecidableEq, Repr

/-- Content of a chat message: either a plain string or a multi-part
list, mirroring str versus list values of the content attribute. -/
inductive MsgContent where
  | plain (s : String)
  | parts (l : List ContentPart)
deriving DecidableEq, Repr

/-- An item of the chat context: a chat message carrying a role and
content, or another item kind without a content attribute, such as a
function call record. -/
inductive HistItem where
  | msg (role : String) (content : MsgContent)
  | other (tag : String)
deriving DecidableEq, Repr

/-- A chat message, the type of the new user message handed to the
turn-completion hook. -/
structure ChatMessage where
  role : String
  content : MsgContent
deriving DecidableEq, Repr

/-- True for image parts, mirroring isinstance of ImageContent. -/
def isImagePart : ContentPart → Bool
  | ContentPart.image _ => true
  | ContentPart.text _ => false

/-- True when an item has a content attribute holding a list. -/
def contentIsList : HistItem → Bool
  | HistItem.msg _ (MsgContent.parts _) => true
  | _ => false

/-- Number of image parts an item carries. -/
def itemImageCount : HistItem → Nat
  | HistItem.msg _ (MsgContent.parts l) => (l.filter isImagePart).length
  | _ => 0

/-- The text string held by a text part, none for an image part. -/
def partText : ContentPart → Option String
  | ContentPart.text s => some s
  | ContentPart.image _ => none

/-- The text parts of an item, in order. -/
def itemTexts : HistItem → List String
  | HistItem.msg _ (MsgContent.parts l) => l.filterMap partText
  | HistItem.msg _ (MsgContent.plain s) => [s]
  | HistItem.other _ => []

/-! ## FrameBuffer: deque of maxlen 3 -/

/-- Append to the bounded deque: the new frame goes to the right and, past
capacity, the oldest frames fall off the left. -/
def fb_append (buf : List Frame) (f : Frame) : List Frame :=
  let b := buf ++ [f]
  b.drop (b.length - FRAME_BUFFER_CAP)

/-- The buffer obtained by appending a whole sequence of frames, oldest
first, to an initially empty deque. -/
def fb_run (ops : List Frame) : List Frame := ops.foldl fb_append []

/-- Snapshot of the buffer, oldest to newest, as taken by list(buf). -/
def fb_snapshot (buf : List Frame) : List Frame := buf

/-! ## ContextPruner: _strip_old_images -/

/-- Strip the image parts of a single item: for a multi-part content the
parts that are images are removed in place; any other item is untouched,
mirroring the hasattr and isinstance guards. -/
def stripItem : HistItem → HistItem
  | HistItem.msg r (MsgContent.parts l) =>
      HistItem.msg r (MsgContent.parts (l.filter (fun c => !(isImagePart c))))
  | it => it

/-- Strip images from all but the most recent KEEP_IMAGES_IN_LAST_N
messages of the turn context. -/
def strip_old_images (items : List HistItem) : List HistItem :=
  if items.length > KEEP_IMAGES_IN_LAST_N then
    (items.take (items.length - KEEP_IMAGES_IN_LAST_N)).map stripItem
      ++ items.drop (items.length - KEEP_IMAGES_IN_LAST_N)
  else items

/-! ## ContextPruner: _inject_video_frames -/

/-- Model-consumable inline representation of a frame, produced by the
external encode collaborator; the pipeline only threads it through. -/
def frameDataUrl (f : Frame) : String := "data:image/jpeg;base64," ++ f

/-- Normalize message content into a list of parts: list content is taken
as is, a plain value is wrapped in a singleton list. -/
def contentToList : MsgContent → List ContentPart
  | MsgContent.parts l => l
  | MsgContent.plain s => [ContentPart.text s]

/-- The injection loop: each frame is inserted at index length - 1 of the
current content list, that is right before its last element. -/
def injectLoop (frames : List Frame) (content : List ContentPart) : List ContentPart :=
  match frames with
  | [] => content
  | f :: rest =>
      injectLoop rest
        (content.insertIdx (content.length - 1) (ContentPart.image (frameDataUrl f)))

/-- Inject the buffered frames into the new user message: a no-op when the
buffer is empty, otherwise the normalized content receives one image part
per buffered frame, oldest first, each inserted before the trailing
element. -/
def inject_video_frames (buffer : List Frame) (m : ChatMessage) : ChatMessage :=
  if buffer.isEmpty then m
  else { m with content := MsgContent.parts (injectLoop buffer (contentToList m.content)) }

/-! ## HistoryCompactor: _summarize_older_turns, _maybe_summarize -/

/-- The role attribute of an item, with the getattr default. -/
def itemRole : HistItem → String
  | HistItem.msg r _ => r
  | HistItem.other _ => "unknown"

/-- The text extracted from one item for summarization: a plain content
string is taken as is; a multi-part content yields its string parts
joined by single spaces; an item without content yields the getattr
default, the empty string. -/
def itemText : HistItem → String
  | HistItem.msg _ (MsgContent.plain s) => s
  | HistItem.msg _ (MsgContent.parts l) => String.intercalate " " (l.filterMap partText)
  | HistItem.other _ => ""

/-- One summarization input line for an item, skipped when the extracted
text is falsy, that is empty. -/
def extractLine (it : HistItem) : Option String :=
  let c := itemText it
  if c = "" then none else some (itemRole it ++ ": " ++ c)

/-- The summarization input lines of a segment of items, in order. -/
def extractLines (items : List HistItem) : List String :=
  items.filterMap extractLine

/-- The summarizer over the older items. The external model call is an
opaque collaborator passed in as call, where error models a raised
exception and ok s the response text. When no line is extracted the
function returns the empty string before ever reaching the call. -/
def summarize_older_turns (items : List HistItem) (call : Except Unit String) :
    Except Unit String :=
  if extractLines items = [] then Except.ok ""
  else call

/-- The background compaction task. It re-checks the length predicate
under the gate, splits off the last KEEP_RECENT_ITEMS items, summarizes
the older segment, and on a non-empty summary replaces the history with
the synthetic assistant summary message followed by the recent segment.
Any failure of the call leaves the history unchanged. The second
component is the in-progress flag after the finally block: always
false. -/
def do_summarize (items : List HistItem) (call : Except Unit String) :
    List HistItem × Bool :=
  if items.length ≤ SUMMARIZE_THRESHOLD then (items, false)
  else
    let split_point := items.length - KEEP_RECENT_ITEMS
    let older_items := items.take split_point
    let recent_items := items.drop split_point
    match summarize_older_turns older_items call with
    | Except.error _ => (items, false)
    | Except.ok summary =>
        if summary = "" then (items, false)
        else
          (HistItem.msg "assistant"
              (MsgContent.plain ("[Conversation so far: " ++ summary ++ "]"))
            :: recent_items, false)

/-- The non-blocking trigger. Returns the in-progress flag after the call
and whether a compaction task was scheduled: nothing is scheduled when
the item count is at most the threshold or a compaction is already in
flight; otherwise the flag is set and one task is created. The body runs
without suspension points up to task creation, so successive triggers
are sequential. -/
def maybe_summarize (items : List HistItem) (in_progress : Bool) : Bool × Bool :=
  if items.length ≤ SUMMARIZE_THRESHOLD || in_progress then (in_progress, false)
  else (true, true)

/-! ## ConversationModeController: the three agent states -/

/-- The three conversational states of the agent. -/
inductive ConvState where
  | onboarding
  | chef
  | recipe
deriving DecidableEq, Repr

/-- The state visible to one turn-completion call: the turn context copy
whose items are stripped, the newly completed user message, the frame
buffer, the persistent chat context checked by the trigger, the
in-progress flag, and whether this turn scheduled a compaction task. -/
structure TurnPipelineState where
  turnItems : List HistItem
  newMsg : ChatMessage
  buffer : List Frame
  persistentItems : List HistItem
  inProgress : Bool
  scheduled : Bool
deriving DecidableEq, Repr

/-- The body shared by the ChefAgent and RecipeAgent turn-completion
hooks: strip old images, inject the buffered frames, then run the
summarization trigger against the persistent chat context, in that
order. -/
def turn_pipeline (s : TurnPipelineState) : TurnPipelineState :=
  let s1 := { s with turnItems := strip_old_images s.turnItems }
  let s2 := { s1 with newMsg := inject_video_frames s1.buffer s1.newMsg }
  let m := maybe_summarize s2.persistentItems s2.inProgress
  { s2 with inProgress := m.1, scheduled := m.2 }

/-- The turn-completion hook by state. ChefAgent and RecipeAgent override
it with the pipeline body; OnboardingAgent defines no override, and the
inherited default hook of the base Agent class performs none of the
stripping, injection or triggering, leaving the pipeline state
unchanged. -/
def on_user_turn_completed : ConvState → TurnPipelineState → TurnPipelineState
  | ConvState.chef, s => turn_pipeline s
  | ConvState.recipe, s => turn_pipeline s
  | ConvState.onboarding, s => s

/-! ## FrameSampler: the discovery step of _capture_video_frames -/

/-- A track publication of a remote participant: whether its track is
present and its source kind. -/
structure TrackPublication where
  hasTrack : Bool
  source : String
deriving DecidableEq, Repr

/-- A remote participant with its track publications. -/
structure Participant where
  pubs : List TrackPublication
deriving DecidableEq, Repr

/-- The nested discovery loops: the first publication, in participant and
publication order, whose track is present and whose source is the
camera. -/
def findCameraTrack (ps : List Participant) : Option TrackPublication :=
  ps.findSome? (fun p => p.pubs.find? (fun pub => pub.hasTrack && pub.source == "camera"))

/-- The mutable state owned by the sampler loop: the frame ring buffer
and the single latest-frame slot. -/
structure SamplerState where
  buffer : List Frame
  latest : Option Frame
deriving DecidableEq, Repr

/-- One discovery step of the capture loop: when no participant publishes
a camera track, the frame buffer and the latest-frame slot are cleared
and the loop sleeps for the poll interval, returned in milliseconds;
otherwise the state is untouched and the loop proceeds to streaming. -/
def discovery_step (ps : List Participant) (st : SamplerState) : SamplerState × Nat :=
  match findCameraTrack ps with
  | none => ({ buffer := [], latest := none }, 1000)
  | some _ => (st, 0)

/-! ## Theorems: FrameBuffer -/

lemma fb_run_append (ops : List Frame) (f : Frame) :
    fb_run (ops ++ [f]) = fb_append (fb_run ops) f := by
  simp [fb_run, List.foldl_append]

lemma fb_run_eq_drop (ops : List Frame) :
    fb_run ops = ops.drop (ops.length - FRAME_BUFFER_CAP) := by
  induction ops using List.reverseRecOn with
  | nil => rfl
  | append_singleton l f ih =>
      rw [fb_run_append, ih]
      rcases Nat.lt_or_ge l.length FRAME_BUFFER_CAP with h | h
      · have h0 : l.length - FRAME_BUFFER_CAP = 0 := by omega
        have h1 : (l ++ [f]).length - FRAME_BUFFER_CAP = 0 := by
          simp only [List.length_append, List.length_singleton]
          simp only [FRAME_BUFFER_CAP] at h ⊢
          omega
        simp [fb_append, h0, h1]
      · have hd : (l.drop (l.length - FRAME_BUFFER_CAP)).length = FRAME_BUFFER_CAP := by
          simp only [List.length_drop]
          omega
        have h1 : (l.drop (l.length - FRAME_BUFFER_CAP) ++ [f]).length - FRAME_BUFFER_CAP = 1 := by
          simp only [List.length_append, List.length_singleton, hd]
          omega
        simp only [fb_append, h1]
        have h2 : (1 : Nat) ≤ (l.drop (l.length - FRAME_BUFFER_CAP)).length := by
          rw [hd]; simp [FRAME_BUFFER_CAP]
        rw [List.drop_append_of_le_length h2, List.drop_drop]
        have h3 : (l ++ [f]).length - FRAME_BUFFER_CAP = l.length - FRAME_BUFFER_CAP + 1 := by
          simp only [List.length_append, List.length_singleton]
          omega
        have h4 : l.length - FRAME_BUFFER_CAP + 1 ≤ l.length := by
          simp only [FRAME_BUFFER_CAP] at h ⊢
          omega
        rw [h3, List.drop_append_of_le_length h4]

lemma fb_run_length (ops : List Frame) :
    (fb_run ops).length = min ops.length FRAME_BUFFER_CAP := by
  rw [fb_run_eq_drop]
  simp only [List.length_drop]
  omega

/-- Claim C2: for every sequence of N frames appended to the frame buffer
of capacity 3, the resulting length is min N 3 and the contents are the
last 3 frames of the sequence, oldest to newest; appending to a full
buffer evicts the oldest frame. -/
theorem frame_buffer_bounded_last_frames (ops : List Frame) :
    (fb_run ops).length = min ops.length FRAME_BUFFER_CAP
    ∧ fb_run ops = ops.drop (ops.length - FRAME_BUFFER_CAP)
    ∧ (∀ buf g, buf.length = FRAME_BUFFER_CAP → fb_append buf g = buf.drop 1 ++ [g]) := by
  refine ⟨fb_run_length ops, fb_run_eq_drop ops, ?_⟩
  intro buf g hb
  simp only [fb_append, List.length_append, List.length_singleton, hb]
  have h1 : FRAME_BUFFER_CAP + 1 - FRAME_BUFFER_CAP = 1 := by omega
  have h2 : (1 : Nat) ≤ buf.length := by rw [hb]; simp [FRAME_BUFFER_CAP]
  rw [h1, List.drop_append_of_le_length h2]

/-- Witness for claim C2 at a concrete run of five frames. -/
theorem frame_buffer_bounded_last_frames_witness :
    fb_run ["f1", "f2", "f3", "f4", "f5"] = ["f3", "f4", "f5"]
    ∧ fb_append ["f3", "f4", "f5"] "f6" = ["f4", "f5", "f6"] := by
  have h := frame_buffer_bounded_last_frames ["f1", "f2", "f3", "f4", "f5"]
  refine ⟨?_, ?_⟩
  · rw [h.2.1]
    decide
  · rw [h.2.2 ["f3", "f4", "f5"] "f6" (by decide)]
    decide

/-! ## Theorems: image stripping -/

lemma filter_image_strip (l : List ContentPart) :
    (l.filter (fun c => !(isImagePart c))).filter isImagePart = [] := by
  induction l with
  | nil => rfl
  | cons c rest ih =>
      cases c with
      | text s =>
          rw [List.filter_cons_of_pos (by simp [isImagePart]),
            List.filter_cons_of_neg (by simp [isImagePart]), ih]
      | image u =>
          rw [List.filter_cons_of_neg (by simp [isImagePart]), ih]

lemma filterMap_partText_strip (l : List ContentPart) :
    (l.filter (fun c => !(isImagePart c))).filterMap partText = l.filterMap partText := by
  induction l with
  | nil => rfl
  | cons c rest ih =>
      cases c with
      | text s =>
          rw [List.filter_cons_of_pos (by simp [isImagePart])]
          simp only [List.filterMap_cons, partText]
          rw [ih]
      | image u =>
          rw [List.filter_cons_of_neg (by simp [isImagePart]), ih]
          simp only [List.filterMap_cons, partText]

lemma filter_image_strip_idem (l : List ContentPart) :
    (l.filter (fun c => !(isImagePart c))).filter (fun c => !(isImagePart c))
      = l.filter (fun c => !(isImagePart c)) := by
  induction l with
  | nil => rfl
  | cons c rest ih =>
      cases c with
      | text s =>
          rw [List.filter_cons_of_pos (by simp [isImagePart]),
            List.filter_cons_of_pos (by simp [isImagePart]), ih]
      | image u =>
          rw [List.filter_cons_of_neg (by simp [isImagePart]), ih]

lemma stripItem_imageCount (it : HistItem) : itemImageCount (stripItem it) = 0 := by
  cases it with
  | msg r c =>
      cases c with
      | plain s => rfl
      | parts l => simp [stripItem, itemImageCount, filter_image_strip]
  | other t => rfl

lemma stripItem_texts (it : HistItem) : itemTexts (stripItem it) = itemTexts it := by
  cases it with
  | msg r c =>
      cases c with
      | plain s => rfl
      | parts l => simp [stripItem, itemTexts, filterMap_partText_strip]
  | other t => rfl

lemma stripItem_idem (it : HistItem) : stripItem (stripItem it) = stripItem it := by
  cases it with
  | msg r c =>
      cases c with
      | plain s => rfl
      | parts l => simp [stripItem, filter_image_strip_idem]
  | other t => rfl

lemma stripItem_of_not_list (it : HistItem) (h : contentIsList it = false) :
    stripItem it = it := by
  cases it with
  | msg r c =>
      cases c with
      | plain s => rfl
      | parts l => simp [contentIsList] at h
  | other t => rfl

lemma strip_eq_of_gt (items : List HistItem) (h : items.length > KEEP_IMAGES_IN_LAST_N) :
    strip_old_images items =
      (items.take (items.length - KEEP_IMAGES_IN_LAST_N)).map stripItem
        ++ items.drop (items.length - KEEP_IMAGES_IN_LAST_N) := by
  simp [strip_old_images, h]

lemma strip_eq_of_le (items : List HistItem) (h : ¬ items.length > KEEP_IMAGES_IN_LAST_N) :
    strip_old_images items = items := by
  simp [strip_old_images, h]

lemma strip_length (items : List HistItem) :
    (strip_old_images items).length = items.length := by
  by_cases h : items.length > KEEP_IMAGES_IN_LAST_N
  · rw [strip_eq_of_gt items h]
    simp only [List.length_append, List.length_map, List.length_take, List.length_drop]
    omega
  · rw [strip_eq_of_le items h]

lemma strip_take (items : List HistItem) (h : items.length > KEEP_IMAGES_IN_LAST_N) :
    (strip_old_images items).take (items.length - KEEP_IMAGES_IN_LAST_N)
      = (items.take (items.length - KEEP_IMAGES_IN_LAST_N)).map stripItem := by
  rw [strip_eq_of_gt items h]
  apply List.take_left'
  simp only [List.length_map, List.length_take]
  omega

lemma strip_drop (items : List HistItem) (h : items.length > KEEP_IMAGES_IN_LAST_N) :
    (strip_old_images items).drop (items.length - KEEP_IMAGES_IN_LAST_N)
      = items.drop (items.length - KEEP_IMAGES_IN_LAST_N) := by
  rw [strip_eq_of_gt items h]
  apply List.drop_left'
  simp only [List.length_map, List.length_take]
  omega

/-- Claim C3: for every history, stripping preserves the length, leaves
the last KEEP_IMAGES_IN_LAST_N = 2 messages verbatim, leaves every
earlier message with zero image parts, maps every earlier message
through the per-item strip, keeps all text parts of every message, and
leaves any message whose content is not a multi-part list unchanged. -/
theorem strip_images_retention (items : List HistItem) :
    (strip_old_images items).length = items.length
    ∧ (strip_old_images items).drop (items.length - KEEP_IMAGES_IN_LAST_N)
        = items.drop (items.length - KEEP_IMAGES_IN_LAST_N)
    ∧ (strip_old_images items).take (items.length - KEEP_IMAGES_IN_LAST_N)
        = (items.take (items.length - KEEP_IMAGES_IN_LAST_N)).map stripItem
    ∧ (∀ it ∈ (strip_old_images items).take (items.length - KEEP_IMAGES_IN_LAST_N),
        itemImageCount it = 0)
    ∧ (∀ it : HistItem, itemTexts (stripItem it) = itemTexts it)
    ∧ (∀ it : HistItem, contentIsList it = false → stripItem it = it) := by
  by_cases h : items.length > KEEP_IMAGES_IN_LAST_N
  · refine ⟨strip_length items, strip_drop items h, strip_take items h, ?_,
      stripItem_texts, stripItem_of_not_list⟩
    intro it hit
    rw [strip_take items h] at hit
    obtain ⟨y, _, rfl⟩ := List.mem_map.1 hit
    exact stripItem_imageCount y
  · have h0 : items.length - KEEP_IMAGES_IN_LAST_N = 0 := by omega
    refine ⟨strip_length items, ?_, ?_, ?_, stripItem_texts, stripItem_of_not_list⟩
    · rw [strip_eq_of_le items h]
    · rw [strip_eq_of_le items h, h0]
      rfl
    · intro it hit
      rw [h0] at hit
      simp at hit

/-- Witness for claim C3 at a concrete history of three messages whose
oldest message carries an image. -/
theorem strip_images_retention_witness :
    itemImageCount (stripItem (HistItem.msg "user"
        (MsgContent.parts [ContentPart.image "old", ContentPart.text "hi"]))) = 0
    ∧ (strip_old_images
        [HistItem.msg "user" (MsgContent.parts [ContentPart.image "old", ContentPart.text "hi"]),
         HistItem.msg "assistant" (MsgContent.plain "sure"),
         HistItem.msg "user" (MsgContent.parts [ContentPart.image "new", ContentPart.text "ok"])]).length
      = 3 := by
  have h := strip_images_retention
    [HistItem.msg "user" (MsgContent.parts [ContentPart.image "old", ContentPart.text "hi"]),
     HistItem.msg "assistant" (MsgContent.plain "sure"),
     HistItem.msg "user" (MsgContent.parts [ContentPart.image "new", ContentPart.text "ok"])]
  refine ⟨?_, ?_⟩
  · exact h.2.2.2.1 _ (by decide)
  · exact h.1.trans (by decide)

/-- Claim C10: image stripping is idempotent. -/
theorem strip_images_idempotent (items : List HistItem) :
    strip_old_images (strip_old_images items) = strip_old_images items := by
  by_cases h : items.length > KEEP_IMAGES_IN_LAST_N
  · have hlen := strip_length items
    have h2 : (strip_old_images items).length > KEEP_IMAGES_IN_LAST_N := by
      rw [hlen]; exact h
    rw [strip_eq_of_gt _ h2, hlen, strip_take items h, strip_drop items h, List.map_map]
    have hcomp : stripItem ∘ stripItem = stripItem := funext stripItem_idem
    rw [hcomp]
    exact (strip_eq_of_gt items h).symm
  · have e := strip_eq_of_le items h
    rw [e, e]

/-! ## Theorems: frame injection -/

lemma insertIdx_before_last (c : List ContentPart) (t x : ContentPart) :
    (c ++ [t]).insertIdx c.length x = c ++ x :: [t] := by
  induction c with
  | nil => rfl
  | cons a rest ih =>
      simp only [List.cons_append, List.length_cons]
      rw [List.insertIdx_succ_cons, ih]

lemma injectLoop_eq (frames : List Frame) :
    ∀ c t, injectLoop frames (c ++ [t])
      = c ++ frames.map (fun f => ContentPart.image (frameDataUrl f)) ++ [t] := by
  induction frames with
  | nil =>
      intro c t
      simp [injectLoop]
  | cons f rest ih =>
      intro c t
      have hl : (c ++ [t]).length - 1 = c.length := by
        simp only [List.length_append, List.length_singleton]
        omega
      rw [injectLoop, hl, insertIdx_before_last, List.append_cons c, ih]
      simp [List.append_assoc]

/-- Claim C4: injecting into an empty buffer leaves the message entirely
unchanged; injecting a non-empty buffer into a message whose normalized
content has a trailing part produces exactly the original leading parts,
then one image part per buffered frame in oldest-to-newest order, then
the trailing part, where a plain non-list content is first normalized
into a singleton multi-part list; and every buffer produced by appends to
the capacity-3 buffer holds at most 3 frames, bounding the number of
injected images. -/
theorem inject_frames_spec (buffer : List Frame) (m : ChatMessage)
    (c : List ContentPart) (t : ContentPart)
    (hnorm : contentToList m.content = c ++ [t]) :
    inject_video_frames [] m = m
    ∧ (buffer ≠ [] → inject_video_frames buffer m =
        { m with content := MsgContent.parts (c ++
            buffer.map (fun f => ContentPart.image (frameDataUrl f)) ++ [t]) })
    ∧ (∀ ops : List Frame, (fb_run ops).length ≤ FRAME_BUFFER_CAP) := by
  refine ⟨rfl, ?_, ?_⟩
  · intro hb
    have hne : buffer.isEmpty = false := by
      cases buffer with
      | nil => exact absurd rfl hb
      | cons f rest => rfl
    simp only [inject_video_frames, hne, Bool.false_eq_true, if_false]
    rw [hnorm, injectLoop_eq]
  · intro ops
    rw [fb_run_length]
    omega

/-- Witness for claim C4: two frames injected into a plain-text user
message land before the text, oldest first. -/
theorem inject_frames_spec_witness :
    inject_video_frames ["a", "b"] ⟨"user", MsgContent.plain "look"⟩
      = ⟨"user", MsgContent.parts
          [ContentPart.image "data:image/jpeg;base64,a",
           ContentPart.image "data:image/jpeg;base64,b",
           ContentPart.text "look"]⟩
    ∧ inject_video_frames [] ⟨"user", MsgContent.plain "look"⟩
      = ⟨"user", MsgContent.plain "look"⟩ := by
  have h := inject_frames_spec ["a", "b"] ⟨"user", MsgContent.plain "look"⟩
    [] (ContentPart.text "look") (by decide)
  refine ⟨?_, h.1⟩
  rw [h.2.1 (by decide)]
  decide

/-! ## Theorems: history compaction -/

lemma do_summarize_flag (items : List HistItem) (call : Except Unit String) :
    (do_summarize items call).2 = false := by
  by_cases hle : items.length ≤ SUMMARIZE_THRESHOLD
  · simp [do_summarize, hle]
  · simp only [do_summarize, if_neg hle, summarize_older_turns]
    by_cases hnil : extractLines (items.take (items.length - KEEP_RECENT_ITEMS)) = []
    · simp [hnil]
    · cases call with
      | error e => simp [hnil]
      | ok s =>
          by_cases hse : s = "" <;> simp [hnil, hse]

lemma do_summarize_le (items : List HistItem) (call : Except Unit String)
    (h : items.length ≤ SUMMARIZE_THRESHOLD) :
    (do_summarize items call).1 = items := by
  simp [do_summarize, h]

lemma do_summarize_error (items : List HistItem) :
    (do_summarize items (Except.error ())).1 = items := by
  by_cases hle : items.length ≤ SUMMARIZE_THRESHOLD
  · simp [do_summarize, hle]
  · simp only [do_summarize, if_neg hle, summarize_older_turns]
    by_cases hnil : extractLines (items.take (items.length - KEEP_RECENT_ITEMS)) = []
    · simp [hnil]
    · simp [hnil]

/-- Claim C1: on a history of 25 items, over the 24-item threshold, a
compaction run whose summarization call returns a non-empty summary
yields exactly 1 + 8 = 9 items: first the single synthetic
assistant-role message wrapping the summary in brackets, then the last
8 pre-compaction items verbatim in order; the in-flight flag ends
cleared. -/
theorem compaction_replaces_older_segment (items : List HistItem) (s : String)
    (hlen : items.length = 25) (hs : s ≠ "")
    (hlines : extractLines (items.take (items.length - KEEP_RECENT_ITEMS)) ≠ []) :
    (do_summarize items (Except.ok s)).1
      = HistItem.msg "assistant" (MsgContent.plain ("[Conversation so far: " ++ s ++ "]"))
        :: items.drop (items.length - KEEP_RECENT_ITEMS)
    ∧ ((do_summarize items (Except.ok s)).1).length = 1 + KEEP_RECENT_ITEMS
    ∧ (do_summarize items (Except.ok s)).2 = false := by
  have hgt : ¬ items.length ≤ SUMMARIZE_THRESHOLD := by
    rw [hlen]
    decide
  refine ⟨?_, ?_, do_summarize_flag items (Except.ok s)⟩
  · simp only [do_summarize, if_neg hgt, summarize_older_turns, if_neg hlines, if_neg hs]
  · simp only [do_summarize, if_neg hgt, summarize_older_turns, if_neg hlines, if_neg hs]
    simp only [List.length_cons, List.length_drop, hlen]
    decide

/-- Witness for claim C1 at a concrete history of 25 plain user turns. -/
theorem compaction_replaces_older_segment_witness :
    (do_summarize (List.replicate 25 (HistItem.msg "user" (MsgContent.plain "hi")))
        (Except.ok "made pasta")).1
      = HistItem.msg "assistant" (MsgContent.plain "[Conversation so far: made pasta]")
        :: List.replicate 8 (HistItem.msg "user" (MsgContent.plain "hi")) := by
  have h := compaction_replaces_older_segment
    (List.replicate 25 (HistItem.msg "user" (MsgContent.plain "hi")))
    "made pasta" (by decide) (by decide) (by decide)
  rw [h.1]
  decide

/-- Claim C5: a compaction run against a history no longer over the
threshold, or whose summarization call fails, leaves the history exactly
unchanged, and in every case the in-flight flag ends cleared. -/
theorem compaction_failure_preserves_history (items : List HistItem)
    (call : Except Unit String) :
    (items.length ≤ SUMMARIZE_THRESHOLD → (do_summarize items call).1 = items)
    ∧ (call = Except.error () → (do_summarize items call).1 = items)
    ∧ (do_summarize items call).2 = false := by
  refine ⟨fun h => do_summarize_le items call h, ?_, do_summarize_flag items call⟩
  intro h
  subst h
  exact do_summarize_error items

/-- Witness for claim C5: a failing summarization call on 25 items. -/
theorem compaction_failure_preserves_history_witness :
    (do_summarize (List.replicate 25 (HistItem.msg "user" (MsgContent.plain "hi")))
        (Except.error ())).1
      = List.replicate 25 (HistItem.msg "user" (MsgContent.plain "hi"))
    ∧ (do_summarize (List.replicate 25 (HistItem.msg "user" (MsgContent.plain "hi")))
        (Except.error ())).2 = false := by
  have h := compaction_failure_preserves_history
    (List.replicate 25 (HistItem.msg "user" (MsgContent.plain "hi"))) (Except.error ())
  exact ⟨h.2.1 rfl, h.2.2⟩

/-- Claim C6: with the history over the threshold and no compaction in
flight, the first trigger sets the flag and schedules exactly one task;
a second trigger issued while the flag is set schedules nothing and
leaves the flag set, so one task is active; and the single task clears
the flag exactly when it finishes, whatever its outcome. -/
theorem single_compaction_in_flight (items : List HistItem)
    (h : items.length > SUMMARIZE_THRESHOLD) :
    (maybe_summarize items false).1 = true
    ∧ (maybe_summarize items false).2 = true
    ∧ (maybe_summarize items (maybe_summarize items false).1).2 = false
    ∧ (maybe_summarize items (maybe_summarize items false).1).1 = true
    ∧ (∀ call, (do_summarize items call).2 = false) := by
  have hgt : ¬ items.length ≤ SUMMARIZE_THRESHOLD := by omega
  have hd : decide (items.length ≤ SUMMARIZE_THRESHOLD) = false := decide_eq_false hgt
  refine ⟨?_, ?_, ?_, ?_, fun call => do_summarize_flag items call⟩ <;>
    simp [maybe_summarize, hd]

/-- Witness for claim C6 at a concrete history of 25 items. -/
theorem single_compaction_in_flight_witness :
    (maybe_summarize (List.replicate 25 (HistItem.msg "user" (MsgContent.plain "hi"))) false).2
      = true
    ∧ (maybe_summarize (List.replicate 25 (HistItem.msg "user" (MsgContent.plain "hi")))
        (maybe_summarize (List.replicate 25 (HistItem.msg "user" (MsgContent.plain "hi")))
          false).1).2 = false := by
  have h := single_compaction_in_flight
    (List.replicate 25 (HistItem.msg "user" (MsgContent.plain "hi"))) (by decide)
  exact ⟨h.2.1, h.2.2.1⟩

/-- Claim C9: when no item of the older segment yields extractable text,
the summarizer returns the empty string without reaching the external
call, and the compaction run leaves the over-threshold history entirely
unchanged while still clearing the in-flight flag. -/
theorem compaction_empty_extraction_noop (items : List HistItem)
    (call : Except Unit String)
    (hlen : items.length > SUMMARIZE_THRESHOLD)
    (hempty : ∀ it ∈ items.take (items.length - KEEP_RECENT_ITEMS), itemText it = "") :
    summarize_older_turns (items.take (items.length - KEEP_RECENT_ITEMS)) call
      = Except.ok ""
    ∧ (do_summarize items call).1 = items
    ∧ (do_summarize items call).2 = false := by
  have hgt : ¬ items.length ≤ SUMMARIZE_THRESHOLD := by omega
  have hnil : extractLines (items.take (items.length - KEEP_RECENT_ITEMS)) = [] := by
    rw [extractLines, List.filterMap_eq_nil_iff]
    intro it hit
    simp [extractLine, hempty it hit]
  refine ⟨?_, ?_, do_summarize_flag items call⟩
  · simp [summarize_older_turns, hnil]
  · simp [do_summarize, if_neg hgt, summarize_older_turns, hnil]

/-- Witness for claim C9 at 25 image-only user turns. -/
theorem compaction_empty_extraction_noop_witness :
    (do_summarize
        (List.replicate 25 (HistItem.msg "user" (MsgContent.parts [ContentPart.image "x"])))
        (Except.ok "junk")).1
      = List.replicate 25 (HistItem.msg "user" (MsgContent.parts [ContentPart.image "x"])) := by
  have h := compaction_empty_extraction_noop
    (List.replicate 25 (HistItem.msg "user" (MsgContent.parts [ContentPart.image "x"])))
    (Except.ok "junk") (by decide) (by decide)
  exact h.2.1

/-! ## Theorems: turn-completion hook across the conversational states -/

/-- A concrete pipeline state: three turn items with an image in the
oldest one, a plain new user message, one buffered frame. -/
def exTurnState : TurnPipelineState :=
  { turnItems :=
      [HistItem.msg "user" (MsgContent.parts [ContentPart.image "old", ContentPart.text "hi"]),
       HistItem.msg "assistant" (MsgContent.plain "sure"),
       HistItem.msg "user" (MsgContent.plain "next")],
    newMsg := { role := "user", content := MsgContent.plain "what now" },
    buffer := ["frame1"],
    persistentItems := [],
    inProgress := false,
    scheduled := false }

/-- Counterexample to claim C7: in the Onboarding state a completed user
turn does not invoke image stripping — the turn items, including the
stale image of the oldest message, are left exactly as they were, while
stripping would have removed that image. -/
theorem turn_hook_onboarding_counterexample :
    (on_user_turn_completed ConvState.onboarding exTurnState).turnItems
      ≠ strip_old_images exTurnState.turnItems := by
  decide

/-- Claim C7 amended: the Chef and Recipe states run, on every completed
user turn, image stripping, then frame injection, then the compaction
trigger, in that order against the shared state; the Onboarding state
defines no turn-completion override and performs none of these
operations. -/
theorem turn_hook_states (s : TurnPipelineState) :
    (on_user_turn_completed ConvState.chef s).turnItems = strip_old_images s.turnItems
    ∧ (on_user_turn_completed ConvState.chef s).newMsg
        = inject_video_frames s.buffer s.newMsg
    ∧ (on_user_turn_completed ConvState.chef s).inProgress
        = (maybe_summarize s.persistentItems s.inProgress).1
    ∧ (on_user_turn_completed ConvState.chef s).scheduled
        = (maybe_summarize s.persistentItems s.inProgress).2
    ∧ (on_user_turn_completed ConvState.chef s).buffer = s.buffer
    ∧ (on_user_turn_completed ConvState.chef s).persistentItems = s.persistentItems
    ∧ on_user_turn_completed ConvState.recipe s = on_user_turn_completed ConvState.chef s
    ∧ on_user_turn_completed ConvState.onboarding s = s :=
  ⟨rfl, rfl, rfl, rfl, rfl, rfl, rfl, rfl⟩

/-! ## Theorems: frame sampler discovery -/

/-- Claim C8: when no participant publishes a camera track, one discovery
step clears the frame buffer and the latest-frame slot and sleeps for
the 1000 ms poll interval, so a snapshot taken after the step is
empty. -/
theorem sampler_clears_on_source_loss (ps : List Participant) (st : SamplerState)
    (h : findCameraTrack ps = none) :
    (discovery_step ps st).1.buffer = []
    ∧ (discovery_step ps st).1.latest = none
    ∧ (discovery_step ps st).2 = 1000
    ∧ fb_snapshot (discovery_step ps st).1.buffer = [] := by
  simp [discovery_step, h, fb_snapshot]

/-- Witness for claim C8: a participant publishing only a microphone
track, with a previously full buffer and latest slot. -/
theorem sampler_clears_on_source_loss_witness :
    (discovery_step [{ pubs := [{ hasTrack := true, source := "microphone" }] }]
        { buffer := ["g1", "g2", "g3"], latest := some "g3" }).1.buffer = []
    ∧ (discovery_step [{ pubs := [{ hasTrack := true, source := "microphone" }] }]
        { buffer := ["g1", "g2", "g3"], latest := some "g3" }).1.latest = none
    ∧ (discovery_step [{ pubs := [{ hasTrack := true, source := "microphone" }] }]
        { buffer := ["g1", "g2", "g3"], latest := some "g3" }).2 = 1000 := by
  have h := sampler_clears_on_source_loss
    [{ pubs := [{ hasTrack := true, source := "microphone" }] }]
    { buffer := ["g1", "g2", "g3"], latest := some "g3" } (by decide)
  exact ⟨h.1, h.2.1, h.2.2.1⟩

end ChefClaude
